import Mathlib

/-!
Verification of the Echo Services order bot: a shallow embedding of the
orders store, the TTL cache, and the order-management operations, with
theorems checking the design spec against the implementation.

The embedding mirrors the JavaScript source: the module-level variables
ordersCache and lastOrdersLoad together with the orders.json file become an
explicit SysState record; the async file read and write become a file field
of the state, with a Bool parameter standing for success or failure of the
write system call; Date.now() becomes an explicit Nat parameter.
-/

set_option maxRecDepth 8000

namespace EchoServices

/-- One order record, with exactly the fields pushed by the POST /inquiry
handler: uuid, status, payment, discordUsername, clientDiscordId,
serverName, serverInvite, serviceType, budget, paymentMethod,
projectDetails, createdAt, paidAt, notes. -/
structure Order where
  uuid : String
  status : String
  payment : String
  discordUsername : String
  clientDiscordId : String
  serverName : String
  serverInvite : String
  serviceType : String
  budget : String
  paymentMethod : String
  projectDetails : String
  createdAt : String
  paidAt : Option String
  notes : String
deriving Repr, DecidableEq

/-- The state of the orders.json backing file: absent, present but not
parseable as JSON, or holding a parsed array of orders. -/
inductive OrdersFile where
  | missing : OrdersFile
  | malformed : OrdersFile
  | content : List Order → OrdersFile
deriving Repr, DecidableEq

/-- The mutable module state: the variables ordersCache (null or a
snapshot) and lastOrdersLoad, plus the backing file. -/
structure SysState where
  ordersCache : Option (List Order)
  lastOrdersLoad : Nat
  file : OrdersFile
deriving Repr, DecidableEq

/-- CACHE_TTL = 30_000 milliseconds. -/
def CACHE_TTL : Nat := 30000

/-- CONFIG.MAX_ORDERS_MEMORY = 500, the retention cap. -/
def MAX_ORDERS_MEMORY : Nat := 500

/-- Reading plus JSON.parse of the orders file: a missing file (readFile
throws) and a malformed file (JSON.parse throws) both fail. -/
def parseOrdersFile : OrdersFile → Option (List Order)
  | OrdersFile.missing => none
  | OrdersFile.malformed => none
  | OrdersFile.content l => some l

/-- The trim in loadOrders:
if (orders.length > CONFIG.MAX_ORDERS_MEMORY) orders = orders.slice(-CONFIG.MAX_ORDERS_MEMORY).
JavaScript slice(-n) keeps the last n elements, i.e. drops length - n. -/
def applyCap (l : List Order) : List Order :=
  if l.length > MAX_ORDERS_MEMORY then l.drop (l.length - MAX_ORDERS_MEMORY) else l

/-- The catch-guarded file-read branch of loadOrders: on a parseable file,
trim to the cap and cache the result with a fresh timestamp; on any
read or parse failure, cache the empty list with a fresh timestamp. -/
def loadFromFile (st : SysState) (now : Nat) : List Order × SysState :=
  match parseOrdersFile st.file with
  | some l =>
      let orders := applyCap l
      (orders, { st with ordersCache := some orders, lastOrdersLoad := now })
  | none => ([], { st with ordersCache := some [], lastOrdersLoad := now })

/-- loadOrders: if ordersCache is non-null (a JavaScript array is always
truthy, even when empty) and now - lastOrdersLoad < CACHE_TTL, return the
cached snapshot untouched; otherwise read from the file. -/
def loadOrders (st : SysState) (now : Nat) : List Order × SysState :=
  match st.ordersCache with
  | some cached =>
      if now - st.lastOrdersLoad < CACHE_TTL then (cached, st) else loadFromFile st now
  | none => loadFromFile st now

/-- saveOrders: assigns ordersCache and lastOrdersLoad first, then awaits
fs.writeFile. The writeOk flag models whether that write system call
succeeds; on failure the file keeps its previous contents while the two
cache assignments have already happened. -/
def saveOrders (st : SysState) (orders : List Order) (now : Nat) (writeOk : Bool) : SysState :=
  let cached : SysState := { st with ordersCache := some orders, lastOrdersLoad := now }
  if writeOk then { cached with file := OrdersFile.content orders } else cached

/-- The loadOrders of the dashboard backend variant (no cache):
try JSON.parse(readFileSync) catch return []. -/
def loadOrdersSimple (f : OrdersFile) : List Order :=
  match parseOrdersFile f with
  | some l => l
  | none => []

/-- Array.prototype.findIndex, with -1 rendered as none. -/
def findIndex (p : α → Bool) : List α → Option Nat
  | [] => none
  | a :: as => if p a then some 0 else (findIndex p as).map (fun i => i + 1)

/-- JavaScript String.prototype.startsWith: a case-sensitive comparison of
the leading characters. -/
def strStartsWith (pre s : String) : Bool :=
  List.isPrefixOf pre.data s.data

/-- The lookup predicate o.uuid.startsWith(id) used by the !order, !paid,
!unpaid, !setstatus and !note commands. -/
def uuidHasPre (pre : String) (o : Order) : Bool :=
  strStartsWith pre o.uuid

/-- orders.find(o => o.uuid.startsWith(id)): the first order, in insertion
order, whose uuid the supplied string is a prefix of. -/
def findOrderByIdPre (orders : List Order) (pre : String) : Option Order :=
  orders.find? (uuidHasPre pre)

/-- The body of the !paid and !unpaid commands: find by uuid prefix, set
payment and paidAt on that entry. Not-found leaves the list unchanged
(the handler replies with an error and does not save). -/
def setPaymentCmd (orders : List Order) (pre : String) (paid : Bool) (nowIso : String) :
    List Order :=
  match findIndex (uuidHasPre pre) orders with
  | some i =>
      match orders.get? i with
      | some o =>
          orders.set i
            { o with
              payment := if paid then "✅ Paid" else "⏳ Unpaid",
              paidAt := if paid then some nowIso else none }
      | none => orders
  | none => orders

/-- The body of the !setstatus command: find by uuid prefix, overwrite the
status field of that entry. -/
def setStatusCmd (orders : List Order) (pre newStatus : String) : List Order :=
  match findIndex (uuidHasPre pre) orders with
  | some i =>
      match orders.get? i with
      | some o => orders.set i { o with status := newStatus }
      | none => orders
  | none => orders

/-- The body of the !note command: find by uuid prefix, overwrite the
notes field of that entry. -/
def setNoteCmd (orders : List Order) (pre note : String) : List Order :=
  match findIndex (uuidHasPre pre) orders with
  | some i =>
      match orders.get? i with
      | some o => orders.set i { o with notes := note }
      | none => orders
  | none => orders

/-- The condition of the accept/decline scan:
orders[i].clientDiscordId === discordId && orders[i].status === "Pending". -/
def pendingMatch (sid : String) (o : Order) : Bool :=
  o.clientDiscordId == sid && o.status == "Pending"

/-- The downward for loop of the accept/decline handler, scanning indices
i = n-1, n-2, ..., 0 and stopping at the first match. -/
def findLatestPendingAux (orders : List Order) (sid : String) : Nat → Option Nat
  | 0 => none
  | i + 1 =>
      match orders.get? i with
      | some o => if pendingMatch sid o then some i else findLatestPendingAux orders sid i
      | none => findLatestPendingAux orders sid i

/-- idx after the loop: the index of the most recent Pending order of the
given submitter, or none when the loop leaves idx = -1. -/
def findLatestPendingIdx (orders : List Order) (sid : String) : Option Nat :=
  findLatestPendingAux orders sid orders.length

/-- orders[i].status = s (out-of-range index leaves the list unchanged). -/
def setStatusAt (orders : List Order) (i : Nat) (s : String) : List Order :=
  match orders.get? i with
  | some o => orders.set i { o with status := s }
  | none => orders

/-- The status written by the accept or decline button. -/
def decisionStatus (accept : Bool) : String :=
  if accept then "Accepted" else "Declined"

/-- The order-collection effect of the accept/decline button handler: load
the orders, scan most-recent-first for a Pending order of the submitter;
if found, overwrite its status and save; if idx stays -1, skip saveOrders
entirely (the handler still edits the message and replies). -/
def applyDecision (st : SysState) (sid : String) (accept : Bool) (now : Nat) : SysState :=
  let res := loadOrders st now
  match findLatestPendingIdx res.1 sid with
  | some i => saveOrders res.2 (setStatusAt res.1 i (decisionStatus accept)) now true
  | none => res.2

/-- The request body fields destructured by POST /inquiry; an absent or
empty field is the empty string (both are falsy in JavaScript). -/
structure InquiryFields where
  discordUsername : String
  clientDiscordId : String
  serverName : String
  serverInvite : String
  serverType : String
  budget : String
  paymentMethod : String
  projectDetails : String
deriving Repr, DecidableEq

/-- A decimal digit character, code points 48 through 57. -/
def charIsDigit (c : Char) : Bool :=
  decide (48 ≤ c.toNat) && decide (c.toNat ≤ 57)

/-- A JavaScript-truthy (non-empty) string. -/
def strNonEmpty (s : String) : Bool :=
  !(s == "")

/-- isValidSnowflake: the regex test of 17 to 20 digits and nothing else. -/
def isValidSnowflake (s : String) : Bool :=
  decide (17 ≤ s.length) && decide (s.length ≤ 20) && s.data.all charIsDigit

/-- The validation gate of POST /inquiry: every required field truthy
(non-empty) and the Discord id a valid snowflake. -/
def validInquiry (f : InquiryFields) : Bool :=
  strNonEmpty f.discordUsername && strNonEmpty f.clientDiscordId &&
  strNonEmpty f.serverName && strNonEmpty f.serverType && strNonEmpty f.budget &&
  strNonEmpty f.paymentMethod && strNonEmpty f.projectDetails &&
  isValidSnowflake f.clientDiscordId

/-- The object literal pushed by POST /inquiry, with uuid = randomUUID()
and createdAt = new Date().toISOString() passed in explicitly. -/
def mkInquiryOrder (f : InquiryFields) (uuid nowIso : String) : Order :=
  { uuid := uuid
    status := "Pending"
    payment := "⏳ Unpaid"
    discordUsername := f.discordUsername
    clientDiscordId := f.clientDiscordId
    serverName := f.serverName
    serverInvite := if f.serverInvite == "" then "Not provided" else f.serverInvite
    serviceType := f.serverType
    budget := if f.budget == "Custom — DM me" then "Custom (to discuss)" else f.budget
    paymentMethod := f.paymentMethod
    projectDetails := f.projectDetails
    createdAt := nowIso
    paidAt := none
    notes := "" }

/-- The order-collection effect of POST /inquiry after validation: load
the orders, push the new order, save. The store write is taken as
succeeding (writeOk = true), the normal path of the route. -/
def createOrder (st : SysState) (f : InquiryFields) (uuid : String) (now : Nat)
    (nowIso : String) : Order × SysState :=
  let res := loadOrders st now
  let o := mkInquiryOrder f uuid nowIso
  (o, saveOrders res.2 (res.1 ++ [o]) now true)

/-- Insertion of an already-built order: load, push, save. -/
def insertOrder (st : SysState) (o : Order) (now : Nat) : SysState :=
  let res := loadOrders st now
  saveOrders res.2 (res.1 ++ [o]) now true

/-- The payment invariant of the data model: paidAt is non-null exactly
when the payment field holds the paid label. -/
def paidInv (o : Order) : Prop :=
  o.paidAt ≠ none ↔ o.payment = "✅ Paid"

instance (o : Order) : Decidable (paidInv o) := by
  unfold paidInv
  infer_instance

/-- A concrete order used by witnesses and counterexamples. -/
def mkTestOrder (i : Nat) : Order :=
  { uuid := toString i
    status := "Pending"
    payment := "⏳ Unpaid"
    discordUsername := "client"
    clientDiscordId := "100000000000000000"
    serverName := "srv"
    serverInvite := "Not provided"
    serviceType := "Other / Not Sure"
    budget := "50"
    paymentMethod := "PayPal"
    projectDetails := "details"
    createdAt := "2026-01-01T00:00:00.000Z"
    paidAt := none
    notes := "" }

/-- n distinct concrete orders, in insertion order. -/
def mkTestOrders (n : Nat) : List Order :=
  (List.range n).map mkTestOrder

/-! ## Cache lemmas -/

theorem loadOrders_cache_hit (st : SysState) (now : Nat) (c : List Order)
    (hc : st.ordersCache = some c) (ht : now - st.lastOrdersLoad < CACHE_TTL) :
    loadOrders st now = (c, st) := by
  unfold loadOrders
  rw [hc]
  simp [ht]

theorem loadFromFile_file (st : SysState) (now : Nat) :
    (loadFromFile st now).2.file = st.file := by
  unfold loadFromFile
  cases parseOrdersFile st.file <;> simp

theorem loadOrders_file (st : SysState) (now : Nat) :
    (loadOrders st now).2.file = st.file := by
  unfold loadOrders
  cases hc : st.ordersCache with
  | none => exact loadFromFile_file st now
  | some c =>
      by_cases ht : now - st.lastOrdersLoad < CACHE_TTL
      · simp [ht]
      · simp only [ht, if_false]
        exact loadFromFile_file st now

theorem saveOrders_ordersCache (st : SysState) (orders : List Order) (now : Nat)
    (writeOk : Bool) : (saveOrders st orders now writeOk).ordersCache = some orders := by
  unfold saveOrders
  cases writeOk <;> simp

theorem saveOrders_lastOrdersLoad (st : SysState) (orders : List Order) (now : Nat)
    (writeOk : Bool) : (saveOrders st orders now writeOk).lastOrdersLoad = now := by
  unfold saveOrders
  cases writeOk <;> simp

/-! ## C1: a write-through is immediately visible to same-process readers -/

/-- C1: for every sequence of orders, after a write-through via saveOrders,
an immediate read via loadOrders within the TTL window returns exactly the
sequence that was saved, without waiting for the TTL to expire. The writeOk
flag is arbitrary: visibility holds whether or not the disk write
succeeds, since saveOrders installs the snapshot in the cache first. -/
theorem c1_write_visible_within_ttl (st : SysState) (orders : List Order)
    (tSave tRead : Nat) (writeOk : Bool) (h : tRead - tSave < CACHE_TTL) :
    (loadOrders (saveOrders st orders tSave writeOk) tRead).1 = orders := by
  rw [loadOrders_cache_hit (saveOrders st orders tSave writeOk) tRead orders
    (saveOrders_ordersCache st orders tSave writeOk)
    (by rw [saveOrders_lastOrdersLoad]; exact h)]

/-- Witness for C1 at a concrete input: save one order at time 0, read at
time 1, well inside the 30000 ms TTL. -/
theorem c1_write_visible_within_ttl_witness :
    (1 - 0 < CACHE_TTL) ∧
    (loadOrders (saveOrders ⟨none, 0, OrdersFile.missing⟩ [mkTestOrder 0] 0 true) 1).1 =
      [mkTestOrder 0] :=
  ⟨by decide,
   c1_write_visible_within_ttl ⟨none, 0, OrdersFile.missing⟩ [mkTestOrder 0] 0 1 true
     (by decide)⟩

/-! ## C2: the cache on a failed store write -/

/-- Counterexample to C2: a concrete write-through whose store write
fails. The claim says the cache snapshot and timestamp are left unchanged;
in the code both assignments happen before fs.writeFile is awaited, so
both have changed. -/
theorem c2_cex :
    (saveOrders ⟨some [], 0, OrdersFile.content []⟩ [mkTestOrder 0] 5 false).ordersCache ≠
      (⟨some [], 0, OrdersFile.content []⟩ : SysState).ordersCache ∧
    (saveOrders ⟨some [], 0, OrdersFile.content []⟩ [mkTestOrder 0] 5 false).lastOrdersLoad ≠
      (⟨some [], 0, OrdersFile.content []⟩ : SysState).lastOrdersLoad := by
  decide

/-- C2 amended: on a failed store write the backing file is left
unchanged, but the cache snapshot and timestamp have already been updated
to the new value — saveOrders updates the cache before the write is
attempted, not after the store confirms it. -/
theorem c2_failed_write_updates_cache_only (st : SysState) (orders : List Order)
    (now : Nat) :
    (saveOrders st orders now false).file = st.file ∧
    (saveOrders st orders now false).ordersCache = some orders ∧
    (saveOrders st orders now false).lastOrdersLoad = now := by
  unfold saveOrders
  simp

/-! ## C5: a missing or malformed file reads as the empty sequence -/

/-- C5: for every state whose read must go to the store (no cached
snapshot, or the snapshot older than the TTL), a missing or malformed
orders file yields the empty sequence rather than an error; the cacheless
dashboard variant behaves the same. -/
theorem c5_missing_or_malformed_reads_empty (st : SysState) (now : Nat)
    (hmiss : st.ordersCache = none ∨ ¬ (now - st.lastOrdersLoad < CACHE_TTL))
    (hf : st.file = OrdersFile.missing ∨ st.file = OrdersFile.malformed) :
    (loadOrders st now).1 = [] ∧ loadOrdersSimple st.file = [] := by
  have hparse : parseOrdersFile st.file = none := by
    cases hf with
    | inl h => rw [h]; rfl
    | inr h => rw [h]; rfl
  have hfromFile : (loadFromFile st now).1 = [] := by
    unfold loadFromFile
    rw [hparse]
  constructor
  · unfold loadOrders
    cases hc : st.ordersCache with
    | none => exact hfromFile
    | some c =>
        cases hmiss with
        | inl h => rw [hc] at h; exact absurd h (by simp)
        | inr h => simp only [h, if_false]; exact hfromFile
  · unfold loadOrdersSimple
    rw [hparse]

/-- Witness for C5 at a concrete input: an expired cache over a malformed
file reads as empty. -/
theorem c5_missing_or_malformed_reads_empty_witness :
    ((⟨some [mkTestOrder 3], 0, OrdersFile.malformed⟩ : SysState).ordersCache = none ∨
      ¬ (40000 - (⟨some [mkTestOrder 3], 0, OrdersFile.malformed⟩ : SysState).lastOrdersLoad <
        CACHE_TTL)) ∧
    (loadOrders ⟨some [mkTestOrder 3], 0, OrdersFile.malformed⟩ 40000).1 = [] ∧
    loadOrdersSimple (⟨some [mkTestOrder 3], 0, OrdersFile.malformed⟩ : SysState).file = [] :=
  ⟨Or.inr (by decide),
   c5_missing_or_malformed_reads_empty ⟨some [mkTestOrder 3], 0, OrdersFile.malformed⟩ 40000
     (Or.inr (by decide)) (Or.inr rfl)⟩

/-! ## C3: the retention cap -/

theorem insertOrder_warm (l : List Order) (o : Order) (tL now : Nat) (f : OrdersFile)
    (h : now - tL < CACHE_TTL) :
    insertOrder ⟨some l, tL, f⟩ o now =
      ⟨some (l ++ [o]), now, OrdersFile.content (l ++ [o])⟩ := by
  unfold insertOrder
  rw [loadOrders_cache_hit ⟨some l, tL, f⟩ now l rfl h]
  unfold saveOrders
  simp

theorem foldl_insertOrder_warm (xs : List Order) (l : List Order) (f : OrdersFile) :
    (List.foldl (fun s o => insertOrder s o 0) ⟨some l, 0, f⟩ xs).ordersCache =
      some (l ++ xs) ∧
    (List.foldl (fun s o => insertOrder s o 0) ⟨some l, 0, f⟩ xs).lastOrdersLoad = 0 := by
  induction xs generalizing l f with
  | nil => simp
  | cons x xs ih =>
      rw [List.foldl_cons, insertOrder_warm l x 0 0 f (by decide)]
      have h2 := ih (l ++ [x]) (OrdersFile.content (l ++ [x]))
      simpa [List.append_assoc] using h2

/-- The state after inserting 510 orders, one mutation call each, into an
initially empty collection, all within one TTL window. -/
def c3Final : SysState :=
  List.foldl (fun s o => insertOrder s o 0) ⟨some [], 0, OrdersFile.content []⟩
    (mkTestOrders 510)

/-- Counterexample to C3: with cap 500 and 510 orders inserted, a
subsequent read one millisecond later returns all 510 orders, not the
most recent 500 — the trim in loadOrders runs only when the cache is
missed, and saveOrders never trims. -/
theorem c3_cex :
    (loadOrders c3Final 1).1 = mkTestOrders 510 ∧
    (loadOrders c3Final 1).1 ≠ (mkTestOrders 510).drop 10 := by
  have hc := foldl_insertOrder_warm (mkTestOrders 510) [] (OrdersFile.content [])
  have hcache : c3Final.ordersCache = some (mkTestOrders 510) := by
    unfold c3Final
    simpa using hc.1
  have hlast : c3Final.lastOrdersLoad = 0 := by
    unfold c3Final
    exact hc.2
  have hread : loadOrders c3Final 1 = (mkTestOrders 510, c3Final) :=
    loadOrders_cache_hit c3Final 1 (mkTestOrders 510) hcache (by rw [hlast]; decide)
  refine ⟨by rw [hread], ?_⟩
  rw [hread]
  intro hEq
  have hlen := congrArg List.length hEq
  simp only [mkTestOrders, List.length_drop, List.length_map, List.length_range] at hlen
  omega

/-- C3 amended: the cap is enforced on reads that go to the store. For
every over-cap file, a read that misses the cache (no snapshot, or the
snapshot older than the TTL) returns exactly the cap-many most recently
inserted orders in their original relative order, the oldest entries
dropped; a read within the TTL window returns the untrimmed cached
snapshot (see the counterexample). -/
theorem c3_cold_read_trims (st : SysState) (now : Nat) (l : List Order)
    (hmiss : st.ordersCache = none ∨ ¬ (now - st.lastOrdersLoad < CACHE_TTL))
    (hf : st.file = OrdersFile.content l) (hlen : l.length > MAX_ORDERS_MEMORY) :
    (loadOrders st now).1 = l.drop (l.length - MAX_ORDERS_MEMORY) ∧
    (loadOrders st now).1.length = MAX_ORDERS_MEMORY := by
  have hparse : parseOrdersFile st.file = some l := by rw [hf]; rfl
  have hfrom : (loadFromFile st now).1 = l.drop (l.length - MAX_ORDERS_MEMORY) := by
    unfold loadFromFile
    rw [hparse]
    show applyCap l = _
    unfold applyCap
    rw [if_pos hlen]
  have hload : (loadOrders st now).1 = l.drop (l.length - MAX_ORDERS_MEMORY) := by
    unfold loadOrders
    cases hc : st.ordersCache with
    | none => exact hfrom
    | some c =>
        cases hmiss with
        | inl h => rw [hc] at h; exact absurd h (by simp)
        | inr h => simp only [h, if_false]; exact hfrom
  refine ⟨hload, ?_⟩
  rw [hload, List.length_drop]
  omega

/-- Witness for C3 amended at a concrete input: a cold read over a file of
501 orders returns the final 500. -/
theorem c3_cold_read_trims_witness :
    (mkTestOrders 501).length > MAX_ORDERS_MEMORY ∧
    (loadOrders ⟨none, 0, OrdersFile.content (mkTestOrders 501)⟩ 0).1 =
      (mkTestOrders 501).drop ((mkTestOrders 501).length - MAX_ORDERS_MEMORY) := by
  have hlen : (mkTestOrders 501).length > MAX_ORDERS_MEMORY := by
    simp only [mkTestOrders, List.length_map, List.length_range, MAX_ORDERS_MEMORY]
    decide
  exact ⟨hlen, (c3_cold_read_trims ⟨none, 0, OrdersFile.content (mkTestOrders 501)⟩ 0
    (mkTestOrders 501) (Or.inl rfl) rfl hlen).1⟩

/-! ## C4: order creation -/

theorem saveOrders_file_true (st : SysState) (orders : List Order) (now : Nat) :
    (saveOrders st orders now true).file = OrdersFile.content orders := by
  unfold saveOrders
  simp

/-- C4: for every valid submission and every fresh uuid supplied by
randomUUID, createOrder is total (never fails) and yields an order with
that uuid, status Pending, the unpaid payment label, null paidAt and the
creation timestamp, appended at the end of the collection, installed in
the cache and persisted to the file; the uuid occurs exactly once in the
resulting collection. -/
theorem c4_create_order (st : SysState) (f : InquiryFields) (uuid : String) (now : Nat)
    (nowIso : String) (_hv : validInquiry f = true)
    (hfresh : uuid ∉ (loadOrders st now).1.map (fun o => o.uuid)) :
    ((createOrder st f uuid now nowIso).1.uuid = uuid ∧
      (createOrder st f uuid now nowIso).1.status = "Pending" ∧
      (createOrder st f uuid now nowIso).1.payment = "⏳ Unpaid" ∧
      (createOrder st f uuid now nowIso).1.paidAt = none ∧
      (createOrder st f uuid now nowIso).1.createdAt = nowIso) ∧
    (createOrder st f uuid now nowIso).2.ordersCache =
      some ((loadOrders st now).1 ++ [(createOrder st f uuid now nowIso).1]) ∧
    (createOrder st f uuid now nowIso).2.file =
      OrdersFile.content ((loadOrders st now).1 ++ [(createOrder st f uuid now nowIso).1]) ∧
    (((loadOrders st now).1 ++ [(createOrder st f uuid now nowIso).1]).map
      (fun o => o.uuid)).count uuid = 1 := by
  refine ⟨⟨rfl, rfl, rfl, rfl, rfl⟩, ?_, ?_, ?_⟩
  · exact saveOrders_ordersCache _ _ _ _
  · exact saveOrders_file_true _ _ _
  · rw [List.map_append, List.count_append, List.count_eq_zero.mpr hfresh]
    simp [createOrder, mkInquiryOrder]

/-- Concrete valid submission fields for the C4 witness. -/
def c4Fields : InquiryFields :=
  { discordUsername := "user"
    clientDiscordId := "12345678901234567"
    serverName := "srv"
    serverInvite := ""
    serverType := "Other / Not Sure"
    budget := "50"
    paymentMethod := "PayPal"
    projectDetails := "a ticket bot" }

/-- Witness for C4 at a concrete input: a valid submission with a fresh
uuid against a one-order collection. -/
theorem c4_create_order_witness :
    validInquiry c4Fields = true ∧
    "ffffffff" ∉
      (loadOrders ⟨some [mkTestOrder 0], 0, OrdersFile.content [mkTestOrder 0]⟩ 1).1.map
        (fun o => o.uuid) ∧
    (createOrder ⟨some [mkTestOrder 0], 0, OrdersFile.content [mkTestOrder 0]⟩ c4Fields
      "ffffffff" 1 "2026-01-02T00:00:00.000Z").1.status = "Pending" ∧
    (((loadOrders ⟨some [mkTestOrder 0], 0, OrdersFile.content [mkTestOrder 0]⟩ 1).1 ++
      [(createOrder ⟨some [mkTestOrder 0], 0, OrdersFile.content [mkTestOrder 0]⟩ c4Fields
        "ffffffff" 1 "2026-01-02T00:00:00.000Z").1]).map (fun o => o.uuid)).count
      "ffffffff" = 1 := by
  have h := c4_create_order ⟨some [mkTestOrder 0], 0, OrdersFile.content [mkTestOrder 0]⟩
    c4Fields "ffffffff" 1 "2026-01-02T00:00:00.000Z" (by decide) (by decide)
  exact ⟨by decide, by decide, h.1.2.1, h.2.2.2⟩

/-! ## C6: prefix lookup returns the first match in insertion order -/

/-- C6: findOrderByIdPre scans the collection in insertion order with a
case-sensitive prefix test against uuid, so whenever an order matches and
every order inserted before it does not, that order is returned. -/
theorem c6_find_first_by_id_pre (l1 l2 : List Order) (o : Order) (pre : String)
    (hmatch : uuidHasPre pre o = true)
    (hearlier : ∀ x ∈ l1, uuidHasPre pre x = false) :
    findOrderByIdPre (l1 ++ o :: l2) pre = some o := by
  unfold findOrderByIdPre
  induction l1 with
  | nil => simp [List.find?_cons, hmatch]
  | cons x xs ih =>
      have hx : uuidHasPre pre x = false := hearlier x (by simp)
      rw [List.cons_append, List.find?_cons_of_neg _ (by simp [hx])]
      exact ih (fun y hy => hearlier y (by simp [hy]))

/-- An order whose uuid begins abc123, inserted before oB in the C6
witness. -/
def oA : Order := { mkTestOrder 0 with uuid := "abc123aa" }

/-- An order whose uuid begins abcd99, inserted after oA in the C6
witness. -/
def oB : Order := { mkTestOrder 1 with uuid := "abcd99bb" }

/-- Witness for C6 at the concrete input of the claim: with abc123aa
inserted before abcd99bb, looking up abc returns the first inserted; the
match is case-sensitive, so looking up ABC finds nothing. -/
theorem c6_find_first_by_id_pre_witness :
    uuidHasPre "abc" oA = true ∧
    findOrderByIdPre [oA, oB] "abc" = some oA ∧
    findOrderByIdPre [oA, oB] "ABC" = none :=
  ⟨by decide,
   c6_find_first_by_id_pre [] [oB] oA "abc" (by decide) (by simp),
   by decide⟩

/-! ## C7: accept/decline picks the most recent Pending order -/

theorem findLatestPendingAux_some (orders : List Order) (sid : String) :
    ∀ n i, findLatestPendingAux orders sid n = some i →
      i < n ∧ (∃ o, orders.get? i = some o ∧ pendingMatch sid o = true) ∧
      ∀ j o2, i < j → j < n → orders.get? j = some o2 → pendingMatch sid o2 = false := by
  intro n
  induction n with
  | zero =>
      intro i h
      exact absurd h (by simp [findLatestPendingAux])
  | succ n ih =>
      intro i h
      unfold findLatestPendingAux at h
      cases hg : orders.get? n with
      | some o =>
          simp only [hg] at h
          by_cases hp : pendingMatch sid o = true
          · rw [if_pos hp] at h
            obtain rfl : n = i := Option.some.inj h
            refine ⟨Nat.lt_succ_self _, ⟨o, hg, hp⟩, ?_⟩
            intro j o2 hij hjn _
            omega
          · rw [if_neg hp] at h
            obtain ⟨hin, hex, hafter⟩ := ih i h
            refine ⟨Nat.lt_succ_of_lt hin, hex, ?_⟩
            intro j o2 hij hjn hgj
            rcases Nat.lt_succ_iff_lt_or_eq.mp hjn with hj | rfl
            · exact hafter j o2 hij hj hgj
            · rw [hg] at hgj
              cases hgj
              simpa using hp
      | none =>
          simp only [hg] at h
          obtain ⟨hin, hex, hafter⟩ := ih i h
          refine ⟨Nat.lt_succ_of_lt hin, hex, ?_⟩
          intro j o2 hij hjn hgj
          rcases Nat.lt_succ_iff_lt_or_eq.mp hjn with hj | rfl
          · exact hafter j o2 hij hj hgj
          · rw [hg] at hgj
            cases hgj

/-- C7: whenever the accept/decline scan yields an index, that index holds
an order of the given submitter with status Pending, every more recent
index holds no such order (the scan runs from most recent to oldest), and
the handler mutates exactly that order: the resulting state is the
write-through of the collection with that entry's status overwritten. -/
theorem c7_latest_pending_selected (st : SysState) (sid : String) (accept : Bool)
    (now : Nat) (i : Nat)
    (hfind : findLatestPendingIdx (loadOrders st now).1 sid = some i) :
    (∃ o, (loadOrders st now).1.get? i = some o ∧ pendingMatch sid o = true) ∧
    (∀ j o2, i < j → (loadOrders st now).1.get? j = some o2 →
      pendingMatch sid o2 = false) ∧
    applyDecision st sid accept now =
      saveOrders (loadOrders st now).2
        (setStatusAt (loadOrders st now).1 i (decisionStatus accept)) now true := by
  obtain ⟨hin, hex, hafter⟩ :=
    findLatestPendingAux_some (loadOrders st now).1 sid (loadOrders st now).1.length i hfind
  refine ⟨hex, ?_, ?_⟩
  · intro j o2 hij hgj
    by_cases hj : j < (loadOrders st now).1.length
    · exact hafter j o2 hij hj hgj
    · rw [List.get?_eq_none.mpr (Nat.le_of_not_lt hj)] at hgj
      cases hgj
  · unfold applyDecision
    simp only [hfind]

/-- The C7 witness collection: two Pending orders of the same submitter,
index 0 inserted first, index 1 most recent. -/
def stC7 : SysState :=
  ⟨some [mkTestOrder 0, mkTestOrder 1], 0, OrdersFile.content [mkTestOrder 0, mkTestOrder 1]⟩

/-- Witness for C7 at a concrete input: with two Pending orders of the
submitter, the scan picks index 1, the most recent, and that entry is the
one mutated. -/
theorem c7_latest_pending_selected_witness :
    findLatestPendingIdx (loadOrders stC7 0).1 "100000000000000000" = some 1 ∧
    (∃ o, (loadOrders stC7 0).1.get? 1 = some o ∧
      pendingMatch "100000000000000000" o = true) ∧
    applyDecision stC7 "100000000000000000" true 0 =
      saveOrders (loadOrders stC7 0).2
        (setStatusAt (loadOrders stC7 0).1 1 (decisionStatus true)) 0 true := by
  have h := c7_latest_pending_selected stC7 "100000000000000000" true 0 1 (by decide)
  exact ⟨by decide, h.1, h.2.2⟩

/-! ## C8: the paidAt / payment invariant -/

theorem paidInv_status_update (o : Order) (s : String) (h : paidInv o) :
    paidInv { o with status := s } := h

theorem paidInv_notes_update (o : Order) (s : String) (h : paidInv o) :
    paidInv { o with notes := s } := h

theorem paidInv_payment_update (o : Order) (paid : Bool) (ts : String) :
    paidInv
      { o with
        payment := if paid then "✅ Paid" else "⏳ Unpaid",
        paidAt := if paid then some ts else none } := by
  cases paid <;> simp [paidInv]

theorem paidInv_mkInquiryOrder (f : InquiryFields) (uuid nowIso : String) :
    paidInv (mkInquiryOrder f uuid nowIso) := by
  simp [paidInv, mkInquiryOrder]

theorem setPaymentCmd_paidInv (l : List Order) (pre : String) (paid : Bool) (ts : String)
    (hinv : ∀ o ∈ l, paidInv o) : ∀ o ∈ setPaymentCmd l pre paid ts, paidInv o := by
  unfold setPaymentCmd
  cases findIndex (uuidHasPre pre) l with
  | none => exact hinv
  | some i =>
      cases hg : l.get? i with
      | none => simp only [hg]; exact hinv
      | some o =>
          simp only [hg]
          intro x hx
          rcases List.mem_or_eq_of_mem_set hx with hmem | rfl
          · exact hinv x hmem
          · exact paidInv_payment_update o paid ts

theorem setStatusCmd_paidInv (l : List Order) (pre s : String)
    (hinv : ∀ o ∈ l, paidInv o) : ∀ o ∈ setStatusCmd l pre s, paidInv o := by
  unfold setStatusCmd
  cases findIndex (uuidHasPre pre) l with
  | none => exact hinv
  | some i =>
      cases hg : l.get? i with
      | none => simp only [hg]; exact hinv
      | some o =>
          simp only [hg]
          intro x hx
          rcases List.mem_or_eq_of_mem_set hx with hmem | rfl
          · exact hinv x hmem
          · exact paidInv_status_update o s (hinv o (List.get?_mem hg))

theorem setNoteCmd_paidInv (l : List Order) (pre s : String)
    (hinv : ∀ o ∈ l, paidInv o) : ∀ o ∈ setNoteCmd l pre s, paidInv o := by
  unfold setNoteCmd
  cases findIndex (uuidHasPre pre) l with
  | none => exact hinv
  | some i =>
      cases hg : l.get? i with
      | none => simp only [hg]; exact hinv
      | some o =>
          simp only [hg]
          intro x hx
          rcases List.mem_or_eq_of_mem_set hx with hmem | rfl
          · exact hinv x hmem
          · exact paidInv_notes_update o s (hinv o (List.get?_mem hg))

theorem setStatusAt_paidInv (l : List Order) (i : Nat) (s : String)
    (hinv : ∀ o ∈ l, paidInv o) : ∀ o ∈ setStatusAt l i s, paidInv o := by
  unfold setStatusAt
  cases hg : l.get? i with
  | none => exact hinv
  | some o =>
      intro x hx
      rcases List.mem_or_eq_of_mem_set hx with hmem | rfl
      · exact hinv x hmem
      · exact paidInv_status_update o s (hinv o (List.get?_mem hg))

/-- C8: the invariant that paidAt is non-null exactly when the payment
field holds the paid label is preserved by every operation that touches
the collection: creation sets the unpaid label with null paidAt, the
payment command sets or clears both fields together, and the status, note
and accept/decline updates leave both fields of every order untouched. -/
theorem c8_paid_invariant (l : List Order) (f : InquiryFields)
    (uuid nowIso pre note newStatus : String) (paid accept : Bool) (i : Nat)
    (hinv : ∀ o ∈ l, paidInv o) :
    (∀ o ∈ l ++ [mkInquiryOrder f uuid nowIso], paidInv o) ∧
    (∀ o ∈ setPaymentCmd l pre paid nowIso, paidInv o) ∧
    (∀ o ∈ setStatusCmd l pre newStatus, paidInv o) ∧
    (∀ o ∈ setNoteCmd l pre note, paidInv o) ∧
    (∀ o ∈ setStatusAt l i (decisionStatus accept), paidInv o) := by
  refine ⟨?_, setPaymentCmd_paidInv l pre paid nowIso hinv,
    setStatusCmd_paidInv l pre newStatus hinv, setNoteCmd_paidInv l pre note hinv,
    setStatusAt_paidInv l i (decisionStatus accept) hinv⟩
  intro o ho
  rcases List.mem_append.mp ho with hmem | hnew
  · exact hinv o hmem
  · rw [List.mem_singleton.mp hnew]
    exact paidInv_mkInquiryOrder f uuid nowIso

/-- Witness for C8 at a concrete input: a two-order collection satisfying
the invariant, with each operation applied at concrete arguments. -/
theorem c8_paid_invariant_witness :
    (∀ o ∈ [mkTestOrder 0, mkTestOrder 1], paidInv o) ∧
    ((∀ o ∈ [mkTestOrder 0, mkTestOrder 1] ++
        [mkInquiryOrder c4Fields "ffffffff" "2026-01-02T00:00:00.000Z"], paidInv o) ∧
      (∀ o ∈ setPaymentCmd [mkTestOrder 0, mkTestOrder 1] "0" true
        "2026-01-02T00:00:00.000Z", paidInv o) ∧
      (∀ o ∈ setStatusCmd [mkTestOrder 0, mkTestOrder 1] "0" "In Progress", paidInv o) ∧
      (∀ o ∈ setNoteCmd [mkTestOrder 0, mkTestOrder 1] "0" "a note", paidInv o) ∧
      (∀ o ∈ setStatusAt [mkTestOrder 0, mkTestOrder 1] 1 (decisionStatus true),
        paidInv o)) := by
  have h := c8_paid_invariant [mkTestOrder 0, mkTestOrder 1] c4Fields "ffffffff"
    "2026-01-02T00:00:00.000Z" "0" "a note" "In Progress" true true 1 (by decide)
  exact ⟨by decide, h⟩

/-! ## C9: setNote is idempotent -/

theorem uuidHasPre_notes_update (pre : String) (o : Order) (note : String) :
    uuidHasPre pre { o with notes := note } = uuidHasPre pre o := rfl

theorem setNoteCmd_cons_pos (o : Order) (rest : List Order) (pre note : String)
    (h : uuidHasPre pre o = true) :
    setNoteCmd (o :: rest) pre note = { o with notes := note } :: rest := by
  unfold setNoteCmd findIndex
  simp [h]

theorem findIndex_cons (p : α → Bool) (a : α) (as : List α) :
    findIndex p (a :: as) =
      if p a then some 0 else (findIndex p as).map (fun i => i + 1) := rfl

theorem setNoteCmd_cons_neg (o : Order) (rest : List Order) (pre note : String)
    (h : uuidHasPre pre o = false) :
    setNoteCmd (o :: rest) pre note = o :: setNoteCmd rest pre note := by
  cases hf : findIndex (uuidHasPre pre) rest with
  | none => simp [setNoteCmd, findIndex_cons, h, hf]
  | some j =>
      cases hg : rest[j]? with
      | none => simp [setNoteCmd, findIndex_cons, h, hf, hg]
      | some x => simp [setNoteCmd, findIndex_cons, h, hf, hg]

/-- C9: for every collection, prefix and note text, applying setNote twice
yields the same collection as applying it once, and setNote never changes
the collection's length — the note update is idempotent in effect and
never duplicates an order. -/
theorem c9_setNote_idempotent (l : List Order) (pre note : String) :
    setNoteCmd (setNoteCmd l pre note) pre note = setNoteCmd l pre note ∧
    (setNoteCmd l pre note).length = l.length := by
  induction l with
  | nil => exact ⟨rfl, rfl⟩
  | cons o rest ih =>
      by_cases h : uuidHasPre pre o = true
      · rw [setNoteCmd_cons_pos o rest pre note h]
        constructor
        · rw [setNoteCmd_cons_pos { o with notes := note } rest pre note
            (by rw [uuidHasPre_notes_update]; exact h)]
        · simp
      · have h2 : uuidHasPre pre o = false := by simpa using h
        rw [setNoteCmd_cons_neg o rest pre note h2]
        constructor
        · rw [setNoteCmd_cons_neg o (setNoteCmd rest pre note) pre note h2, ih.1]
        · simp [ih.2]

/-! ## C10: accept/decline with no matching Pending order -/

/-- A concrete order that is not Pending, used by the C10 counterexample
and witness. -/
def acceptedOrder : Order := { mkTestOrder 0 with status := "Accepted" }

/-- Counterexample to C10: an accept action with no matching Pending order
on a state whose cache is empty. No write-through happens, but the read
performed by the handler populates the cache from the file, so the cache
is not left completely unchanged. -/
theorem c10_cex :
    (applyDecision ⟨none, 0, OrdersFile.content [acceptedOrder]⟩ "100000000000000000"
      true 40000).ordersCache ≠
      (⟨none, 0, OrdersFile.content [acceptedOrder]⟩ : SysState).ordersCache ∧
    (applyDecision ⟨none, 0, OrdersFile.content [acceptedOrder]⟩ "100000000000000000"
      true 40000).file =
      (⟨none, 0, OrdersFile.content [acceptedOrder]⟩ : SysState).file := by
  decide

/-- C10 amended: when no order has both the matching submitter id and
status Pending, the handler performs no write-through: the resulting state
is exactly the state after the read alone, the backing file is never
changed, and when the cached snapshot is fresh (present and within the
TTL) the entire state is left completely unchanged; the action itself is a
total function and completes without error. -/
theorem c10_no_match_no_write (st : SysState) (sid : String) (accept : Bool) (now : Nat)
    (hnone : findLatestPendingIdx (loadOrders st now).1 sid = none) :
    applyDecision st sid accept now = (loadOrders st now).2 ∧
    (applyDecision st sid accept now).file = st.file ∧
    (∀ c, st.ordersCache = some c → now - st.lastOrdersLoad < CACHE_TTL →
      applyDecision st sid accept now = st) := by
  have h1 : applyDecision st sid accept now = (loadOrders st now).2 := by
    unfold applyDecision
    simp only [hnone]
  refine ⟨h1, ?_, ?_⟩
  · rw [h1]
    exact loadOrders_file st now
  · intro c hc ht
    rw [h1, loadOrders_cache_hit st now c hc ht]

/-- Witness for C10 amended at a concrete input: a warm cache holding one
Accepted order; the accept action leaves the state untouched. -/
theorem c10_no_match_no_write_witness :
    findLatestPendingIdx
      (loadOrders ⟨some [acceptedOrder], 0, OrdersFile.content [acceptedOrder]⟩ 5).1
      "100000000000000000" = none ∧
    applyDecision ⟨some [acceptedOrder], 0, OrdersFile.content [acceptedOrder]⟩
      "100000000000000000" true 5 =
      ⟨some [acceptedOrder], 0, OrdersFile.content [acceptedOrder]⟩ := by
  have h := c10_no_match_no_write
    ⟨some [acceptedOrder], 0, OrdersFile.content [acceptedOrder]⟩
    "100000000000000000" true 5 (by decide)
  exact ⟨by decide, h.2.2 [acceptedOrder] rfl (by decide)⟩

end EchoServices
